import Mathlib

/-!
# `test1/windows/test1/MainPage.h`

The header declares two structs and nothing else:

* `winrt::test1::implementation::MainPage`, derived from `MainPageT<MainPage>`,
  whose body is the single declaration `MainPage();`
* `winrt::test1::factory_implementation::MainPage`, derived from
  `MainPageT<MainPage, implementation::MainPage>`, whose body is empty.

The embedding has two layers.  The declarations themselves are data
(`StructDecl`, `Header`), written down line by line from the header.  On top of
them sit the parts of the C++ object model the header relies on: which members
a struct body declares, how a name written in a base clause is looked up, what
a value of a struct consists of (its base subobject and one slot per data
member declared in its body), and which function a member call reaches.

`MainPage.g.h` and `winrt/Microsoft.ReactNative.h` are included by the header
but are not part of the sources.  What they contribute is a parameter: the
name bindings they make visible (`ext`), the state of the generated base
classes (`B`) and the member functions of the generated `MainPageT` templates
(`inherited`).  Where a statement needs more than that, the generated member
is modelled from the specification and marked as such.
-/

namespace winrt.test1

/-! ## Declarations -/

/-- A name as written in the source, one component per `::`-separated part:
`implementation::MainPage` is `["implementation", "MainPage"]`. -/
abbrev QName := List String

/-- A member declared in a struct body. -/
inductive MemberDecl where
  /-- A constructor declaration, with its parameter types: `MainPage();` is `ctor []`. -/
  | ctor (params : List QName)
  /-- A member function declaration: result type, name, parameter types. -/
  | method (result : QName) (name : String) (params : List QName)
  /-- A data member declaration: type and name. -/
  | field (type : QName) (name : String)
  deriving DecidableEq, Repr

/-- The base clause of a struct: a template name and its arguments as written. -/
structure BaseClause where
  template : String
  args : List QName
  deriving DecidableEq, Repr

/-- A struct definition inside a namespace. -/
structure StructDecl where
  /-- The enclosing namespace, outermost component first. -/
  ns : List String
  name : String
  base : BaseClause
  /-- The member declarations of the body, in source order. -/
  members : List MemberDecl
  deriving DecidableEq, Repr

/-- A header: the files it includes and the structs it defines, in source order. -/
structure Header where
  includes : List String
  structs : List StructDecl
  deriving DecidableEq, Repr

/-- Lines 5-11 of the header:
```
namespace winrt::test1::implementation
{
    struct MainPage : MainPageT<MainPage>
    {
        MainPage();
    };
}
``` -/
def implementation.MainPage : StructDecl :=
  { ns := ["winrt", "test1", "implementation"]
    name := "MainPage"
    base := { template := "MainPageT", args := [["MainPage"]] }
    members := [MemberDecl.ctor []] }

/-- Lines 13-18 of the header:
```
namespace winrt::test1::factory_implementation
{
    struct MainPage : MainPageT<MainPage, implementation::MainPage>
    {
    };
}
``` -/
def factory_implementation.MainPage : StructDecl :=
  { ns := ["winrt", "test1", "factory_implementation"]
    name := "MainPage"
    base := { template := "MainPageT", args := [["MainPage"], ["implementation", "MainPage"]] }
    members := [] }

/-- The whole header: lines 2-3 are the two includes, lines 5-18 the two structs. -/
def MainPage_h : Header :=
  { includes := ["MainPage.g.h", "winrt/Microsoft.ReactNative.h"]
    structs := [implementation.MainPage, factory_implementation.MainPage] }

/-! ## Members of a struct body -/

/-- The data members a struct body declares, as (type, name) pairs. -/
def ownFields (d : StructDecl) : List (QName × String) :=
  d.members.filterMap fun m =>
    match m with
    | MemberDecl.field t n => some (t, n)
    | _ => none

/-- The member functions a struct body declares, constructors apart, as
(result, name, parameters). -/
def ownMethods (d : StructDecl) : List (QName × String × List QName) :=
  d.members.filterMap fun m =>
    match m with
    | MemberDecl.method r n ps => some (r, n, ps)
    | _ => none

/-- The parameter lists of the constructors a struct body declares. -/
def ownConstructors (d : StructDecl) : List (List QName) :=
  d.members.filterMap fun m =>
    match m with
    | MemberDecl.ctor ps => some ps
    | _ => none

/-- The operations a struct body declares: every member that is not a data member. -/
def ownOperations (d : StructDecl) : List MemberDecl :=
  d.members.filter fun m =>
    match m with
    | MemberDecl.field _ _ => false
    | _ => true

/-- The names of the member functions a struct body declares. -/
def ownMethodNames (d : StructDecl) : List String :=
  (ownMethods d).map fun m => m.2.1

/-! ## Name lookup -/

/-- The fully qualified name of a struct. -/
def StructDecl.qualifiedName (d : StructDecl) : QName :=
  d.ns ++ [d.name]

/-- A binding: inside `scope`, a namespace or class given by its fully
qualified name, the name `name` denotes the namespace or type `target`.  A
declaration binds its name in the scope it is written in; a using-declaration,
a namespace alias, a using-directive or an inline namespace makes a name
denote an entity declared elsewhere. -/
structure Binding where
  scope : QName
  name : String
  target : QName
  deriving DecidableEq, Repr

/-- The bindings made by declaring the path `x1::x2::...` inside `outer`: each
component is bound in the scope its predecessors name. -/
def pathBindings (outer : QName) : List String → List Binding
  | [] => []
  | x :: xs =>
    { scope := outer, name := x, target := outer ++ [x] } :: pathBindings (outer ++ [x]) xs

/-- The bindings a header makes itself: every namespace on the path to one of
its structs, and the struct inside its namespace. -/
def Header.bindings (h : Header) : List Binding :=
  (h.structs.map fun d => pathBindings [] d.qualifiedName).flatten

/-- The entities that `x` denotes in scope `s`, one per binding. -/
def denoted (bs : List Binding) (s : QName) (x : String) : List QName :=
  (bs.filter fun b => decide (b.scope = s ∧ b.name = x)).map fun b => b.target

/-- The entity a lookup found: the one all bindings agree on.  No binding, or
bindings to different entities (an ambiguous name), give `none`. -/
def single : List QName → Option QName
  | [] => none
  | t :: ts => if ts.all (fun u => decide (u = t)) then some t else none

/-- Unqualified lookup of `x` through a list of scopes, innermost first: the
first scope in which `x` is bound decides, and outer scopes are not consulted
after it. -/
def lookupFirst (bs : List Binding) (x : String) : List QName → Option QName
  | [] => none
  | s :: ss =>
    match denoted bs s x with
    | [] => lookupFirst bs x ss
    | t :: ts => single (t :: ts)

/-- Qualified lookup of the components that follow `::`, each inside the entity
found so far, never in an enclosing scope. -/
def lookupIn (bs : List Binding) : QName → List String → Option QName
  | e, [] => some e
  | e, y :: ys => (single (denoted bs e y)).bind fun e2 => lookupIn bs e2 ys

/-- The initial segments of a namespace path, shortest first:
`a::b` gives the global namespace, `a` and `a::b`. -/
def initialSegments : List String → List (List String)
  | [] => [[]]
  | x :: xs => [] :: (initialSegments xs).map fun s => x :: s

/-- The scopes that enclose a namespace, innermost first, the global namespace last. -/
def enclosing (ns : List String) : List (List String) :=
  (initialSegments ns).reverse

/-- Lookup of a name written inside namespace `ns`: the first component by
unqualified lookup from `ns` outwards, the remaining ones by qualified lookup
inside what was found.  `ext` lists the bindings the included headers make
visible, by whatever means (declaration, using-declaration, using-directive,
inline namespace, namespace alias); the header adds its own. -/
def resolve (h : Header) (ext : List Binding) (ns : List String) : QName → Option QName
  | [] => none
  | x :: rest =>
    (lookupFirst (ext ++ h.bindings) x (enclosing ns)).bind fun e =>
      lookupIn (ext ++ h.bindings) e rest

/-- Every binding the included headers make for `x` inside scope `s` denotes `t`. -/
def bindsOnly (ext : List Binding) (s : QName) (x : String) (t : QName) : Prop :=
  ∀ b ∈ ext, b.scope = s → b.name = x → b.target = t

/-- The included headers bind no name of this header to another entity: a
binding of theirs for a name that this header declares in the same scope has
the same target. -/
def agrees (h : Header) (ext : List Binding) : Prop :=
  ∀ c ∈ h.bindings, bindsOnly ext c.scope c.name c.target

instance bindsOnly.decidable (ext : List Binding) (s : QName) (x : String) (t : QName) :
    Decidable (bindsOnly ext s x t) :=
  inferInstanceAs (Decidable (∀ b ∈ ext, b.scope = s → b.name = x → b.target = t))

instance agrees.decidable (h : Header) (ext : List Binding) : Decidable (agrees h ext) :=
  inferInstanceAs (Decidable (∀ c ∈ h.bindings, bindsOnly ext c.scope c.name c.target))

/-- The struct of the header with the given fully qualified name. -/
def Header.find (h : Header) (q : QName) : Option StructDecl :=
  h.structs.find? fun d => decide (d.qualifiedName = q)

/-- Lookup of each name of a list, in order; `none` as soon as one names nothing. -/
def resolveAll (h : Header) (ext : List Binding) (ns : List String) :
    List QName → Option (List QName)
  | [] => some []
  | n :: rest =>
    (resolve h ext ns n).bind fun q => (resolveAll h ext ns rest).map fun qs => q :: qs

/-- The template arguments of a struct's base clause, each looked up from the
struct's namespace. -/
def baseArgs (h : Header) (ext : List Binding) (d : StructDecl) : Option (List QName) :=
  resolveAll h ext d.ns d.base.args

/-! ## Values -/

/-- The state a struct adds to its base: one value per data member its body declares. -/
abbrev Own (d : StructDecl) (Val : Type) : Type :=
  { f : QName × String // f ∈ ownFields d } → Val

/-- A value of a struct: the base subobject, whose type `B` comes from the
generated header, and the own state. -/
structure Obj (d : StructDecl) (Val B : Type) where
  base : B
  own : Own d Val

/-- A call of member function `m` on a value of struct `d`.  A function
declared in the body of `d` hides one of the same name in the base (`own`
stands for the definitions of the functions the body declares).  Any other
name reaches the member of the base template, instantiated at the looked-up
template arguments (`inherited`: template name, arguments, member name).  The
base is instantiated with the struct itself as its first argument and may
convert itself to the derived value, so it is handed the whole value.  The
result is `none` when a template argument names nothing. -/
def call {Val B W R : Type} (h : Header) (ext : List Binding) (d : StructDecl)
    (inherited : String → List QName → String → Obj d Val B → W → R)
    (own : String → Obj d Val B → W → R)
    (m : String) (self : Obj d Val B) (w : W) : Option R :=
  if m ∈ ownMethodNames d then some (own m self w)
  else (baseArgs h ext d).map fun args => inherited d.base.template args m self w

/-- A constructed value together with the struct it is a value of. -/
structure Instance (Val B : Type) where
  decl : StructDecl
  value : Obj decl Val B


/-! ## Construction through the factory -/

/-- Whether a value of the struct can be constructed without arguments: its
body declares a constructor without parameters, or no constructor at all (the
default constructor is then implicit). -/
def defaultConstructible (d : StructDecl) : Bool :=
  decide ([] ∈ ownConstructors d) || (ownConstructors d).isEmpty

/-- Modelled from the spec: the constructing member of the generated factory
template `MainPageT<D, T>`.  It is supplied by `MainPage.g.h`, which is not in
the sources, and neither are the definitions of the constructors it runs.  The
specification describes the factory as "a factory used by the WinRT activation
system to construct instances of the implementation type", the implementation
type exposing "a default constructor", and a factory as a type that constructs
"instances of another type without exposing its constructor directly".
Accordingly the member takes the type bound as second template argument,
finds the struct of that name and runs its constructor without parameters;
nothing of the factory value enters.  `ctor` stands for the constructors'
definitions and may fail.  The result is `none` where the instantiation is
ill-formed: another template, not two arguments, a second argument that names
no struct of the header, or a struct that cannot be constructed without
arguments. -/
def MainPageT.construct {Val B BF W E : Type} (h : Header)
    (ctor : (d : StructDecl) → W → Except E (Obj d Val B)) (f : StructDecl)
    (template : String) (args : List QName) (_m : String) (_self : Obj f Val BF) (w : W) :
    Option (Except E (Instance Val B)) :=
  if template = "MainPageT" then
    match args with
    | [_, T] =>
      (h.find T).bind fun d =>
        if defaultConstructible d then
          some ((ctor d w).map fun x => { decl := d, value := x })
        else none
    | _ => none
  else none

/-! ## Concrete surroundings

Concrete contents for what the header leaves open, used to evaluate the
definitions. -/

/-- A value of struct `d` over trivial state. -/
def Sample.value (d : StructDecl) : Obj d Unit Unit :=
  { base := (), own := fun _ => () }

/-- Constructors that build the value over trivial state. -/
def Sample.ctor (d : StructDecl) (_w : Unit) : Except String (Obj d Unit Unit) :=
  Except.ok (Sample.value d)

/-- Bindings of a generated header: it opens the two namespaces of the header
again, declares a `MainPageT` template in each, and declares the implementation
struct ahead of its definition. -/
def Sample.ext : List Binding :=
  [ { scope := ["winrt"], name := "test1", target := ["winrt", "test1"] },
    { scope := ["winrt", "test1"], name := "implementation",
      target := ["winrt", "test1", "implementation"] },
    { scope := ["winrt", "test1", "implementation"], name := "MainPageT",
      target := ["winrt", "test1", "implementation", "MainPageT"] },
    { scope := ["winrt", "test1", "implementation"], name := "MainPage",
      target := ["winrt", "test1", "implementation", "MainPage"] },
    { scope := ["winrt", "test1"], name := "factory_implementation",
      target := ["winrt", "test1", "factory_implementation"] },
    { scope := ["winrt", "test1", "factory_implementation"], name := "MainPageT",
      target := ["winrt", "test1", "factory_implementation", "MainPageT"] } ]

/-- Definitions for member functions declared in the factory body (there are none). -/
def Sample.factoryOwn {R : Type} (r : R) (_m : String)
    (_self : Obj factory_implementation.MainPage Unit Bool) (_w : Unit) : R :=
  r

/-- A factory value over a base whose state is one flag. -/
def Sample.factoryOver (flag : Bool) : Obj factory_implementation.MainPage Unit Bool :=
  { base := flag, own := fun _ => () }

/-- A struct whose body declares no data member has exactly one own state. -/
theorem own_eq_of_ownFields_nil {d : StructDecl} {Val : Type} (hd : ownFields d = [])
    (s t : Own d Val) : s = t := by
  have hno : ∀ x, x ∈ ownFields d → False := by
    rw [hd]
    intro x hx
    cases hx
  funext f
  exact (hno f.1 f.2).elim

/-- A member call on a struct that declares no member function always reaches
the base template. -/
theorem call_of_ownMethods_nil {Val B W R : Type} (h : Header) (ext : List Binding)
    (d : StructDecl) (hd : ownMethods d = [])
    (inherited : String → List QName → String → Obj d Val B → W → R)
    (own : String → Obj d Val B → W → R) (m : String) (self : Obj d Val B) (w : W) :
    call h ext d inherited own m self w
      = (baseArgs h ext d).map fun args => inherited d.base.template args m self w := by
  simp [call, ownMethodNames, hd]

/-! ### Lookup -/

theorem denoted_append (as bs : List Binding) (s : QName) (x : String) :
    denoted (as ++ bs) s x = denoted as s x ++ denoted bs s x := by
  simp [denoted, List.filter_append]

theorem eq_of_mem_denoted {ext : List Binding} {s : QName} {x : String} {t u : QName}
    (hb : bindsOnly ext s x t) (hu : u ∈ denoted ext s x) : u = t := by
  simp only [denoted, List.mem_map, List.mem_filter, decide_eq_true_eq] at hu
  obtain ⟨b, ⟨hmem, hs, hx⟩, rfl⟩ := hu
  exact hb b hmem hs hx

theorem single_of_all_eq {l : List QName} {t : QName} (hne : l ≠ [])
    (hall : ∀ u ∈ l, u = t) : single l = some t := by
  cases l with
  | nil => exact absurd rfl hne
  | cons a as =>
    have ha : a = t := hall a (List.mem_cons_self a as)
    subst ha
    have htail : (as.all fun u => decide (u = a)) = true := by
      rw [List.all_eq_true]
      intro u hu
      exact decide_eq_true (hall u (List.mem_cons_of_mem a hu))
    simp [single, htail]

/-- The first scope decides when the name is bound in it. -/
theorem lookupFirst_hit {bs : List Binding} {x : String} {s : QName} {t : QName}
    (ss : List QName) (hne : denoted bs s x ≠ []) (hall : ∀ u ∈ denoted bs s x, u = t) :
    lookupFirst bs x (s :: ss) = some t := by
  unfold lookupFirst
  cases hd : denoted bs s x with
  | nil => exact absurd hd hne
  | cons a as =>
    simp only
    rw [← hd]
    exact single_of_all_eq hne hall

/-- A scope in which the name is not bound is passed over. -/
theorem lookupFirst_miss {bs : List Binding} {x : String} {s : QName}
    (ss : List QName) (hnil : denoted bs s x = []) :
    lookupFirst bs x (s :: ss) = lookupFirst bs x ss := by
  conv => lhs; unfold lookupFirst
  rw [hnil]

/-- A name the header binds to `t` in scope `s` denotes `t` there, together with
any bindings of the included headers that denote `t` as well. -/
theorem denoted_declared {h : Header} {ext : List Binding} {s : QName} {x : String}
    {t : QName} (hb : bindsOnly ext s x t) (hne : denoted h.bindings s x ≠ [])
    (hall : ∀ u ∈ denoted h.bindings s x, u = t) :
    denoted (ext ++ h.bindings) s x ≠ [] ∧ ∀ u ∈ denoted (ext ++ h.bindings) s x, u = t := by
  rw [denoted_append]
  constructor
  · intro hnil
    exact hne (List.append_eq_nil.mp hnil).2
  · intro u hu
    rcases List.mem_append.mp hu with hu | hu
    · exact eq_of_mem_denoted hb hu
    · exact hall u hu

/-- The first template argument of either base clause, `MainPage`, names the
struct being defined, when the included headers agree with the header. -/
theorem resolve_self (ext : List Binding) (hagrees : agrees MainPage_h ext)
    (d : StructDecl) (hd : d ∈ MainPage_h.structs) :
    resolve MainPage_h ext d.ns ["MainPage"] = some d.qualifiedName := by
  have hcases : d = implementation.MainPage ∨ d = factory_implementation.MainPage := by
    simpa [MainPage_h] using hd
  rcases hcases with rfl | rfl
  · have hb := hagrees
      { scope := ["winrt", "test1", "implementation"], name := "MainPage",
        target := ["winrt", "test1", "implementation", "MainPage"] } (by decide)
    have hden := denoted_declared (h := MainPage_h) hb (by decide) (by decide)
    show (lookupFirst (ext ++ MainPage_h.bindings) "MainPage"
        (["winrt", "test1", "implementation"] :: _)).bind _ = _
    rw [lookupFirst_hit _ hden.1 hden.2]
    rfl
  · have hb := hagrees
      { scope := ["winrt", "test1", "factory_implementation"], name := "MainPage",
        target := ["winrt", "test1", "factory_implementation", "MainPage"] } (by decide)
    have hden := denoted_declared (h := MainPage_h) hb (by decide) (by decide)
    show (lookupFirst (ext ++ MainPage_h.bindings) "MainPage"
        (["winrt", "test1", "factory_implementation"] :: _)).bind _ = _
    rw [lookupFirst_hit _ hden.1 hden.2]
    rfl

/-- Written inside `winrt::test1::factory_implementation`, the name
`implementation::MainPage` denotes `winrt::test1::implementation::MainPage`,
when the included headers agree with the header and bind `implementation`
inside `factory_implementation`, if at all, to `winrt::test1::implementation`. -/
theorem resolve_implementation_MainPage (ext : List Binding)
    (hagrees : agrees MainPage_h ext)
    (himpl : bindsOnly ext ["winrt", "test1", "factory_implementation"] "implementation"
      ["winrt", "test1", "implementation"]) :
    resolve MainPage_h ext ["winrt", "test1", "factory_implementation"]
        ["implementation", "MainPage"]
      = some ["winrt", "test1", "implementation", "MainPage"] := by
  have hns := hagrees
    { scope := ["winrt", "test1"], name := "implementation",
      target := ["winrt", "test1", "implementation"] } (by decide)
  have hst := hagrees
    { scope := ["winrt", "test1", "implementation"], name := "MainPage",
      target := ["winrt", "test1", "implementation", "MainPage"] } (by decide)
  have houter := denoted_declared (h := MainPage_h) hns (by decide) (by decide)
  have hinner := denoted_declared (h := MainPage_h) hst (by decide) (by decide)
  have hfirst : lookupFirst (ext ++ MainPage_h.bindings) "implementation"
      (enclosing ["winrt", "test1", "factory_implementation"])
      = some ["winrt", "test1", "implementation"] := by
    show lookupFirst (ext ++ MainPage_h.bindings) "implementation"
      (["winrt", "test1", "factory_implementation"] :: ["winrt", "test1"] :: _) = _
    by_cases hnil : denoted (ext ++ MainPage_h.bindings)
        ["winrt", "test1", "factory_implementation"] "implementation" = []
    · rw [lookupFirst_miss _ hnil]
      exact lookupFirst_hit _ houter.1 houter.2
    · apply lookupFirst_hit _ hnil
      intro u hu
      rw [denoted_append] at hu
      rcases List.mem_append.mp hu with hu | hu
      · exact eq_of_mem_denoted himpl hu
      · have hnone : denoted MainPage_h.bindings
            ["winrt", "test1", "factory_implementation"] "implementation" = [] := by decide
        rw [hnone] at hu
        cases hu
  show (lookupFirst (ext ++ MainPage_h.bindings) "implementation"
      (enclosing ["winrt", "test1", "factory_implementation"])).bind _ = _
  rw [hfirst]
  show (single (denoted (ext ++ MainPage_h.bindings) ["winrt", "test1", "implementation"]
      "MainPage")).bind _ = _
  rw [single_of_all_eq hinner.1 hinner.2]
  rfl

/-- The base clause `MainPageT<MainPage>` of the implementation struct names the
struct itself. -/
theorem baseArgs_implementation_MainPage (ext : List Binding)
    (hagrees : agrees MainPage_h ext) :
    baseArgs MainPage_h ext implementation.MainPage
      = some [implementation.MainPage.qualifiedName] := by
  show (resolve MainPage_h ext implementation.MainPage.ns ["MainPage"]).bind _ = _
  rw [resolve_self ext hagrees implementation.MainPage (by decide)]
  rfl

/-- The base clause `MainPageT<MainPage, implementation::MainPage>` of the
factory struct names the factory struct and the implementation struct. -/
theorem baseArgs_factory_MainPage (ext : List Binding) (hagrees : agrees MainPage_h ext)
    (himpl : bindsOnly ext ["winrt", "test1", "factory_implementation"] "implementation"
      ["winrt", "test1", "implementation"]) :
    baseArgs MainPage_h ext factory_implementation.MainPage
      = some [factory_implementation.MainPage.qualifiedName,
              implementation.MainPage.qualifiedName] := by
  show (resolve MainPage_h ext factory_implementation.MainPage.ns ["MainPage"]).bind
    (fun q => ((resolve MainPage_h ext ["winrt", "test1", "factory_implementation"]
      ["implementation", "MainPage"]).bind fun q2 => some [q2]).map fun qs => q :: qs) = _
  rw [resolve_self ext hagrees factory_implementation.MainPage (by decide),
    resolve_implementation_MainPage ext hagrees himpl]
  rfl

/-- A binding of the included headers that makes `implementation` denote another
namespace inside `factory_implementation` changes what the base clause names:
the second argument then names nothing. -/
theorem baseArgs_factory_MainPage_rebound :
    baseArgs MainPage_h
      [{ scope := ["winrt", "test1", "factory_implementation"], name := "implementation",
         target := ["winrt", "Microsoft", "ReactNative"] }]
      factory_implementation.MainPage = none := by
  decide

/-! ## The implementation struct -/

/-- C1: the body of `winrt::test1::implementation::MainPage` declares exactly one
operation, a constructor without parameters.  It declares no other member
function and no data member, so for every type of member values the own state
of the struct has a single value, and any two values of the struct, over any
base, agree on every data member the header declares. -/
theorem implementation_MainPage_only_default_constructor :
    ownOperations implementation.MainPage = [MemberDecl.ctor []] ∧
    ownConstructors implementation.MainPage = [[]] ∧
    ownMethods implementation.MainPage = [] ∧
    ownFields implementation.MainPage = [] ∧
    (∀ (Val : Type) (s t : Own implementation.MainPage Val), s = t) ∧
    (∀ (Val B : Type) (a b : Obj implementation.MainPage Val B)
        (f : { f : QName × String // f ∈ ownFields implementation.MainPage }),
        a.own f = b.own f) := by
  have hfields : ownFields implementation.MainPage = [] := by decide
  refine ⟨by decide, by decide, by decide, hfields, ?_, ?_⟩
  · intro Val s t
    exact own_eq_of_ownFields_nil hfields s t
  · intro Val B a b f
    rw [own_eq_of_ownFields_nil hfields a.own b.own]

/-! ## The factory struct -/

/-- C3: the base clause of `winrt::test1::factory_implementation::MainPage`,
`MainPageT<MainPage, implementation::MainPage>`, names the factory struct itself
and `winrt::test1::implementation::MainPage`; each of the two names finds its
own struct in the header, and the struct found for the second is the only one
the implementation namespace declares.  Construction through a factory value
runs the generated member at exactly these arguments, so it is the
constructor without parameters of `implementation::MainPage` and nothing else:
every value the factory produces is a value of `implementation::MainPage`, and
it produces one whenever that constructor completes.  The included headers are
taken to agree with the header on the names it declares and to bind
`implementation` inside `factory_implementation`, if at all, to
`winrt::test1::implementation`. -/
theorem factory_MainPage_constructs_implementation_MainPage
    {Val B BF W E : Type} (ext : List Binding)
    (hagrees : agrees MainPage_h ext)
    (himpl : bindsOnly ext ["winrt", "test1", "factory_implementation"] "implementation"
      ["winrt", "test1", "implementation"])
    (ctor : (d : StructDecl) → W → Except E (Obj d Val B))
    (own : String → Obj factory_implementation.MainPage Val BF → W →
      Option (Except E (Instance Val B)))
    (m : String) (self : Obj factory_implementation.MainPage Val BF) (w : W) :
    baseArgs MainPage_h ext factory_implementation.MainPage
      = some [factory_implementation.MainPage.qualifiedName,
              implementation.MainPage.qualifiedName] ∧
    MainPage_h.find implementation.MainPage.qualifiedName = some implementation.MainPage ∧
    MainPage_h.find factory_implementation.MainPage.qualifiedName
      = some factory_implementation.MainPage ∧
    (∀ d ∈ MainPage_h.structs,
      d.ns = ["winrt", "test1", "implementation"] ↔ d = implementation.MainPage) ∧
    call MainPage_h ext factory_implementation.MainPage
        (MainPageT.construct MainPage_h ctor factory_implementation.MainPage) own m self w
      = some (some ((ctor implementation.MainPage w).map
          fun x => { decl := implementation.MainPage, value := x })) ∧
    (∀ v : Instance Val B,
      call MainPage_h ext factory_implementation.MainPage
          (MainPageT.construct MainPage_h ctor factory_implementation.MainPage) own m self w
        = some (some (Except.ok v)) → v.decl = implementation.MainPage) ∧
    (∀ x : Obj implementation.MainPage Val B,
      ctor implementation.MainPage w = Except.ok x →
      call MainPage_h ext factory_implementation.MainPage
          (MainPageT.construct MainPage_h ctor factory_implementation.MainPage) own m self w
        = some (some (Except.ok { decl := implementation.MainPage, value := x }))) := by
  have hargs := baseArgs_factory_MainPage ext hagrees himpl
  have hfind : MainPage_h.find implementation.MainPage.qualifiedName
      = some implementation.MainPage := by decide
  have hcall : call MainPage_h ext factory_implementation.MainPage
        (MainPageT.construct MainPage_h ctor factory_implementation.MainPage) own m self w
      = some (some ((ctor implementation.MainPage w).map
          fun x => { decl := implementation.MainPage, value := x })) := by
    rw [call_of_ownMethods_nil MainPage_h ext factory_implementation.MainPage (by decide),
      hargs]
    show some (MainPageT.construct MainPage_h ctor factory_implementation.MainPage
      "MainPageT" [factory_implementation.MainPage.qualifiedName,
        implementation.MainPage.qualifiedName] m self w) = _
    simp only [MainPageT.construct, hfind, if_true, Option.some_bind]
    have hdc : defaultConstructible implementation.MainPage = true := by decide
    rw [if_pos hdc]
  refine ⟨hargs, hfind, by decide, ?_, hcall, ?_, ?_⟩
  · intro d hd
    have hcases : d = implementation.MainPage ∨ d = factory_implementation.MainPage := by
      simpa [MainPage_h] using hd
    rcases hcases with rfl | rfl
    · exact ⟨fun _ => rfl, fun _ => rfl⟩
    · exact ⟨fun hns => absurd hns (by decide), fun heq => absurd heq (by decide)⟩
  · intro v hv
    rw [hcall] at hv
    have hv2 := Option.some.inj (Option.some.inj hv)
    cases hc : ctor implementation.MainPage w with
    | error e =>
      rw [hc] at hv2
      cases hv2
    | ok x =>
      rw [hc] at hv2
      cases hv2
      rfl
  · intro x hx
    rw [hcall, hx]
    rfl

/-- C3 at concrete surroundings: with the bindings of a generated header and
constructors that complete, `ActivateInstance` on a factory value yields a
value of `implementation::MainPage`. -/
theorem factory_MainPage_constructs_implementation_MainPage_witness :
    call MainPage_h Sample.ext factory_implementation.MainPage
        (MainPageT.construct MainPage_h Sample.ctor factory_implementation.MainPage)
        (Sample.factoryOwn none) "ActivateInstance" (Sample.factoryOver true) ()
      = some (some (Except.ok
          { decl := implementation.MainPage, value := Sample.value implementation.MainPage })) ∧
    agrees MainPage_h Sample.ext ∧
    bindsOnly Sample.ext ["winrt", "test1", "factory_implementation"] "implementation"
      ["winrt", "test1", "implementation"] :=
  ⟨(factory_MainPage_constructs_implementation_MainPage Sample.ext (by decide) (by decide)
      Sample.ctor (Sample.factoryOwn none) "ActivateInstance" (Sample.factoryOver true)
      ()).2.2.2.2.2.2 (Sample.value implementation.MainPage) rfl,
   by decide, by decide⟩

end winrt.test1
